import Mathlib

/-!
Verification of the picoscope_5000 acquisition engine against its
natural-language specification.

The Python sources (`picoscope_driver.py`, `driver.py`, `bin_reader.py`,
`picoscope_5000_block.py`, `picoscope_constants.py`) are shallowly embedded
below: pure numeric code becomes functions over `Rat`/`Int`/`Nat`
(Python floats are modelled as exact rationals), NumPy arrays become
`List Rat`, mutation becomes explicit state passing, and the vendor driver
is an oracle parameter supplying the device's replies.
-/

namespace Pico

/-- Python's `round` (round half to even), as used by `int(round(...))`
and `int(max(10, round(...)))` throughout the sources. -/
def rnd (x : Rat) : Int :=
  if x - (⌊x⌋ : Rat) < 1/2 then ⌊x⌋
  else if 1/2 < x - (⌊x⌋ : Rat) then ⌊x⌋ + 1
  else if ⌊x⌋ % 2 = 0 then ⌊x⌋ else ⌊x⌋ + 1

/-- Evaluation helper: once the floor of `x` is known, `rnd x` is a
case split on the fractional part. -/
theorem rnd_eval (x : Rat) (f : Int) (h : ⌊x⌋ = f) :
    rnd x = if x - (f : Rat) < 1/2 then f
      else if 1/2 < x - (f : Rat) then f + 1
      else if f % 2 = 0 then f else f + 1 := by
  rw [rnd, h]

/-- `rnd` never rounds below the floor. -/
theorem floor_le_rnd (x : Rat) : ⌊x⌋ ≤ rnd x := by
  rw [rnd]
  split
  · exact le_refl _
  split
  · exact Int.le_add_one (le_refl _)
  split
  · exact le_refl _
  · exact Int.le_add_one (le_refl _)

/-- `np.linspace(a, b, num)`: `num` evenly spaced points from `a` to `b`
inclusive.  Only its length and endpoints matter to the claims. -/
def linspace (a b : Rat) (num : Nat) : List Rat :=
  if num = 0 then []
  else if num = 1 then [a]
  else (List.range num).map (fun i : Nat => a + (b - a) * (i : Rat) / ((num - 1 : Nat) : Rat))

theorem linspace_length (a b : Rat) (num : Nat) : (linspace a b num).length = num := by
  rw [linspace]
  split
  · simp [*]
  split
  · simp [*]
  · simp [List.length_map, List.length_range]

/-- `RANGE_TO_VOLTS.get(rng, 2.0)` from `picoscope_constants.py`:
full-scale volts for a range code, defaulting to 2.0. -/
def rangeToVolts : Nat → Rat
  | 0 => 1/100
  | 1 => 2/100
  | 2 => 5/100
  | 3 => 1/10
  | 4 => 2/10
  | 5 => 5/10
  | 6 => 1
  | 7 => 2
  | 8 => 5
  | 9 => 10
  | 10 => 20
  | _ => 2

/-! ### Ring-buffer write
(`PicoScopeStreamer._on_streaming_ready`, picoscope_driver.py 408–423) -/

/-- NumPy slice assignment `y[start:start+len(vals)] = vals` on a 1-D array. -/
def setSlice (y : List Rat) (start : Nat) (vals : List Rat) : List Rat :=
  y.take start ++ vals ++ y.drop (start + vals.length)

/-- The ring-write step of `_on_streaming_ready` (lines 408–423) for one
channel: `y` is the ring (`self._y_a`), `cur` the write cursor
(`self._write_idx`), `chunk` the delivered (scaled) samples `a`.  In the
source the delivered count `cnt` always equals `len(a)` because the scratch
buffer holds exactly `driver_buffer_size` samples. -/
def writeChunk (ringLen : Nat) (y : List Rat) (cur : Nat) (chunk : List Rat) :
    List Rat × Nat :=
  let cnt := chunk.length
  if ringLen ≤ cnt then
    -- `self._y_a[:] = a[-self._ring_len:]` ; `self._write_idx = 0`
    (chunk.drop (cnt - ringLen), 0)
  else
    let writeEnd := min (cur + cnt) ringLen
    let part1 := writeEnd - cur
    let y1 := setSlice y cur (chunk.take part1)
    let remaining := cnt - part1
    if 0 < remaining then
      (setSlice y1 0 ((chunk.drop part1).take remaining), remaining)
    else
      (y1, writeEnd % ringLen)

/-- The chronological reading of a ring: oldest sample (at the cursor)
first, newest (just before the cursor) last. -/
def ringView (y : List Rat) (cur : Nat) : List Rat :=
  y.drop cur ++ y.take cur

/-- The last `n` elements of a list. -/
def lastN (n : Nat) (l : List Rat) : List Rat :=
  l.drop (l.length - n)

/-- Folding a sequence of delivered chunks into the ring. -/
def foldWrite (ringLen : Nat) (p : List Rat × Nat) (chunks : List (List Rat)) :
    List Rat × Nat :=
  chunks.foldl (fun q c => writeChunk ringLen q.1 q.2 c) p

/-! ### Streaming session state (`PicoScopeStreamer`, picoscope_driver.py) -/

/-- The mutable state of a `PicoScopeStreamer` relevant to acquisition:
configuration fields of `StreamConfig` that the methods mutate, the ring
buffers, the time axis, the write cursor and the trigger-gating flag.
Driver-handle plumbing (DLL loading, ctypes bindings) has no modelled
state. -/
structure SState where
  driverBufferSize : Nat
  rangeA : Nat
  rangeB : Nat
  triggerEnabled : Bool
  thresholdPct : Rat
  sampleIntervalNs : Int
  windowMs : Rat
  maxAdc : Int
  dtS : Rat
  ringLen : Nat
  yA : List Rat
  yB : List Rat
  writeIdx : Nat
  t : List Rat
  seenTrigger : Bool
  deriving Repr

/-- `PicoScopeStreamer.__init__` (lines 114–173): ring sizing from the
configured window and sample interval, zeroed buffers, cursor 0, linspace
time axis, gating disarmed. -/
def sInit (ns : Int) (windowMs : Rat) (bufSize : Nat) (rangeA rangeB : Nat)
    (trigEnabled : Bool) (thresholdPct : Rat) : SState :=
  let dtS := (ns : Rat) * (1/1000000000)
  let windowS := windowMs * (1/1000)
  let rl0 := rnd (windowS / dtS)
  let rl := (if rl0 < 10 then 10 else rl0).toNat
  { driverBufferSize := bufSize
    rangeA := rangeA
    rangeB := rangeB
    triggerEnabled := trigEnabled
    thresholdPct := thresholdPct
    sampleIntervalNs := ns
    windowMs := windowMs
    maxAdc := 0
    dtS := dtS
    ringLen := rl
    yA := List.replicate rl 0
    yB := List.replicate rl 0
    writeIdx := 0
    t := linspace 0 (windowS - dtS) rl
    seenTrigger := false }

/-- `PicoScopeStreamer.apply_trigger` (lines 175–210).  The trigger source
is channel A (`cfg.trigger_source`, never mutated in the sources); the
threshold-in-counts computation and clamping affect only the driver call
and are not session state.  Line 210 rearms gating. -/
def sApplyTrigger (enabled : Bool) (thresholdVolts : Rat) (s : SState) : SState :=
  let fullScaleV := rangeToVolts s.rangeA
  { s with
    triggerEnabled := enabled
    thresholdPct := if fullScaleV ≠ 0 then thresholdVolts / fullScaleV else 0
    seenTrigger := false }

/-- The sample-copy part of `_on_streaming_ready` (lines 397–423): clamp
the delivered window to the scratch-buffer size, scale counts to volts
with each channel's current range, and ring-write both channels.  `buf`
pairs the two scratch buffers (`self._buf_a`, `self._buf_b`), which are
allocated with identical length `driver_buffer_size`. -/
def processSamples (buf : List (Rat × Rat)) (n : Int) (idx : Nat) (s : SState) :
    SState :=
  let endI := min (idx + n.toNat) s.driverBufferSize
  let cnt := endI - idx
  if cnt = 0 then s
  else
    let maxAdcQ : Rat := if s.maxAdc = 0 then 32767 else (s.maxAdc : Rat)
    let scaleA := rangeToVolts s.rangeA / maxAdcQ
    let scaleB := rangeToVolts s.rangeB / maxAdcQ
    let chunkA := ((buf.drop idx).take cnt).map (fun p => p.1 * scaleA)
    let chunkB := ((buf.drop idx).take cnt).map (fun p => p.2 * scaleB)
    let ra := writeChunk s.ringLen s.yA s.writeIdx chunkA
    let rb := writeChunk s.ringLen s.yB s.writeIdx chunkB
    { s with yA := ra.1, yB := rb.1, writeIdx := ra.2 }

/-- `PicoScopeStreamer._on_streaming_ready` (lines 387–423): empty
deliveries are ignored; while gating is active an untriggered callback is
dropped wholesale and a triggered one opens the gate before the copy. -/
def onStreamingReady (buf : List (Rat × Rat)) (n : Int) (idx : Nat)
    (triggered : Int) (s : SState) : SState :=
  if n ≤ 0 then s
  else if s.triggerEnabled ∧ ¬s.seenTrigger then
    if triggered = 0 then s
    else processSamples buf n idx { s with seenTrigger := true }
  else processSamples buf n idx s

/-- `PicoScopeStreamer._ensure_sample_interval_supported` (lines 425–448):
`minNs` is the device's reply (`GetTimebase2` on the minimum stateless
timebase); `none` models a non-OK status, which raises and is swallowed by
the caller before any state is mutated. -/
def ensureSampleIntervalSupported (minNs : Option Rat) (s : SState) : SState :=
  match minNs with
  | none => s
  | some m =>
    if (s.sampleIntervalNs : Rat) < m then
      let ns' := rnd m
      let dtS' := (ns' : Rat) * (1/1000000000)
      { s with
        sampleIntervalNs := ns'
        dtS := dtS'
        t := linspace 0 (s.windowMs * (1/1000) - dtS') s.ringLen }
    else s

/-- `PicoScopeStreamer.reconfigure_timebase` (lines 450–465). -/
def sReconfigureTimebase (minNs : Option Rat) (newNs : Int) (s : SState) : SState :=
  let s1 := { s with sampleIntervalNs := max 1 newNs }
  let s2 := ensureSampleIntervalSupported minNs s1
  let dtS := (s2.sampleIntervalNs : Rat) * (1/1000000000)
  let windowS := s2.windowMs * (1/1000)
  let rl := (max 10 (rnd (windowS / dtS))).toNat
  { s2 with
    dtS := dtS
    ringLen := rl
    yA := List.replicate rl 0
    yB := List.replicate rl 0
    writeIdx := 0
    t := linspace 0 (windowS - dtS) rl }

/-- `PicoScopeStreamer.reconfigure_window_ms` (lines 467–479). -/
def sReconfigureWindowMs (newMs : Rat) (s : SState) : SState :=
  let wm := max (1/100) newMs
  let windowS := wm * (1/1000)
  let rl := (max 10 (rnd (windowS / s.dtS))).toNat
  { s with
    windowMs := wm
    ringLen := rl
    yA := List.replicate rl 0
    yB := List.replicate rl 0
    writeIdx := 0
    t := linspace 0 (windowS - s.dtS) rl }

/-- The streaming operations a session undergoes after construction. -/
inductive SOp where
  | applyTrigger (enabled : Bool) (thresholdVolts : Rat)
  | reconfigureTimebase (minNs : Option Rat) (newNs : Int)
  | reconfigureWindow (newMs : Rat)
  | callback (buf : List (Rat × Rat)) (n : Int) (idx : Nat) (triggered : Int)

def sStep (s : SState) : SOp → SState
  | .applyTrigger e v => sApplyTrigger e v s
  | .reconfigureTimebase m ns => sReconfigureTimebase m ns s
  | .reconfigureWindow w => sReconfigureWindowMs w s
  | .callback buf n idx trig => onStreamingReady buf n idx trig s

def sRun (s : SState) (ops : List SOp) : SState :=
  ops.foldl sStep s

/-! ### Block-mode timebase resolver (`PicoScopeRapidBlock._find_timebase`,
driver.py 177–189) -/

/-- A device reply to `ps5000aGetTimebase2(tb, numSamples)`: an OK flag and
the achieved interval in nanoseconds (`timeIntervalNanoseconds`). -/
abbrev TbOracle := Nat → Nat → Bool × Rat

/-- The probe loop of `_find_timebase`: `fuel` counts the remaining indices
below the 50 000 bound.  The Python acceptance condition
`int(st) == PICO_OK and (tmp_dt.value >= desired_dt or tb > 0 and tmp_dt.value > 0)`
parses as `ok ∧ (dt ≥ desired ∨ (tb > 0 ∧ dt > 0))`.  Returns the accepted
index paired with `some dt` (the loop then stores `dt * 1e-9` in `_dt_s`),
or the bound with `none` when the fallback `return tb` is reached. -/
def findTimebaseAux (oracle : TbOracle) (desired : Rat) (numSamples : Nat)
    (fuel : Nat) (tb : Nat) : Nat × Option Rat :=
  if fuel = 0 then (tb, none)
  else
    let r := oracle tb numSamples
    if r.1 ∧ (desired ≤ r.2 ∨ (0 < tb ∧ 0 < r.2)) then (tb, some r.2)
    else findTimebaseAux oracle desired numSamples (fuel - 1) (tb + 1)
  termination_by fuel

/-- `_find_timebase(num_samples)`: walk `tb` from 0 while `tb < 50_000`. -/
def findTimebase (oracle : TbOracle) (desired : Rat) (numSamples : Nat) :
    Nat × Option Rat :=
  findTimebaseAux oracle desired numSamples 50000 0

/-- The effect of `_find_timebase` on `self._dt_s` (seconds): the accepted
index's interval, or the previous value when the probe bound is hit. -/
def resolveDtS (oracle : TbOracle) (desired : Rat) (numSamples : Nat)
    (dtOld : Rat) : Rat :=
  match (findTimebase oracle desired numSamples).2 with
  | some d => d * (1/1000000000)
  | none => dtOld

/-! ### Block session state (`PicoScopeRapidBlock`, driver.py) -/

/-- The acquisition-relevant state of a `PicoScopeRapidBlock`.  Trigger
configuration is untouched by the operations modelled here (block mode has
no gating) and is omitted. -/
structure BState where
  rangeA : Nat
  rangeB : Nat
  sampleIntervalNs : Int
  plotWindowMs : Rat
  maxAdc : Int
  dtS : Rat
  windowS : Rat
  nSamples : Nat
  yA : List Rat
  yB : List Rat
  t : List Rat
  maxSegVal : Nat
  timebase : Nat
  deriving Repr

/-- `PicoScopeRapidBlock.__init__` (lines 77–106). -/
def bInit (ns : Int) (plotWindowMs : Rat) (plotMaxPoints : Nat)
    (rangeA rangeB : Nat) : BState :=
  let dtS := (ns : Rat) * (1/1000000000)
  let n := plotMaxPoints
  let windowS := (n : Rat) * dtS
  { rangeA := rangeA
    rangeB := rangeB
    sampleIntervalNs := ns
    plotWindowMs := plotWindowMs
    maxAdc := 32767
    dtS := dtS
    windowS := windowS
    nSamples := n
    yA := List.replicate n 0
    yB := List.replicate n 0
    t := linspace 0 (windowS - dtS) n
    maxSegVal := 0
    timebase := 0 }

/-- The segment-clamp and timebase steps of `PicoScopeRapidBlock.open`
(lines 148–166): record the device's max samples per segment, clamp the
sample depth (rebuilding buffers and time axis), and resolve the timebase
for the clamped depth. -/
def bOpenClamp (oracle : TbOracle) (maxSeg : Nat) (s : BState) : BState :=
  let s1 := { s with maxSegVal := maxSeg }
  let s2 :=
    if maxSeg < s1.nSamples then
      { s1 with
        nSamples := maxSeg
        yA := List.replicate maxSeg 0
        yB := List.replicate maxSeg 0
        t := linspace 0 (s1.windowS - s1.dtS) maxSeg }
    else s1
  let r := findTimebase oracle (s2.sampleIntervalNs : Rat) s2.nSamples
  { s2 with
    timebase := r.1
    dtS := resolveDtS oracle (s2.sampleIntervalNs : Rat) s2.nSamples s2.dtS }

/-- The sample-depth formula shared by both block reconfigurators
(lines 317–321 and 335–339): `int(max(10, round(window_s / dt_s)))`,
then clamp to `_max_samples_per_segment` when that is nonzero. -/
def bDepth (windowS dtS : Rat) (maxSegVal : Nat) : Nat :=
  let n0 := (max 10 (rnd (windowS / dtS))).toNat
  if maxSegVal ≠ 0 ∧ maxSegVal < n0 then maxSegVal else n0

/-- `PicoScopeRapidBlock.reconfigure_timebase` (lines 313–330). -/
def bReconfigureTimebase (oracle : TbOracle) (newNs : Int) (s : BState) : BState :=
  let nsv := max 1 newNs
  let dtS := (nsv : Rat) * (1/1000000000)
  let windowS := s.plotWindowMs * (1/1000)
  let n := bDepth windowS dtS s.maxSegVal
  let s1 := { s with
    sampleIntervalNs := nsv
    dtS := dtS
    windowS := windowS
    nSamples := n
    yA := List.replicate n 0
    yB := List.replicate n 0
    t := linspace 0 (windowS - dtS) n }
  let r := findTimebase oracle (s1.sampleIntervalNs : Rat) n
  { s1 with
    timebase := r.1
    dtS := resolveDtS oracle (s1.sampleIntervalNs : Rat) n s1.dtS }

/-- `PicoScopeRapidBlock.reconfigure_window_ms` (lines 332–348). -/
def bReconfigureWindowMs (oracle : TbOracle) (newMs : Rat) (s : BState) : BState :=
  let wm := max (1/100) newMs
  let windowS := wm * (1/1000)
  let n := bDepth windowS s.dtS s.maxSegVal
  let s1 := { s with
    plotWindowMs := wm
    windowS := windowS
    nSamples := n
    yA := List.replicate n 0
    yB := List.replicate n 0
    t := linspace 0 (windowS - s.dtS) n }
  let r := findTimebase oracle (s1.sampleIntervalNs : Rat) n
  { s1 with
    timebase := r.1
    dtS := resolveDtS oracle (s1.sampleIntervalNs : Rat) n s1.dtS }

/-- The publish step of the block loop (`start._loop`, lines 277–290):
`raw` pairs the two scratch buffers (allocated with identical length
`_n_samples`), `cnt` is the count reported by `ps5000aGetValues`.  The
whole block replaces the shared buffer; the time axis is recomputed when
the delivered count differs from its current length. -/
def bPublish (raw : List (Rat × Rat)) (cnt : Nat) (s : BState) : BState :=
  if cnt = 0 then s
  else
    let maxAdcQ : Rat := if s.maxAdc = 0 then 32767 else (s.maxAdc : Rat)
    let scaleA := rangeToVolts s.rangeA / maxAdcQ
    let scaleB := rangeToVolts s.rangeB / maxAdcQ
    let a := (raw.take cnt).map (fun p => p.1 * scaleA)
    let b := (raw.take cnt).map (fun p => p.2 * scaleB)
    let t' := if a.length ≠ s.t.length
      then linspace 0 (s.windowS - s.dtS) a.length
      else s.t
    { s with yA := a, yB := b, t := t' }

/-- The block-mode operations a session undergoes after construction. -/
inductive BOp where
  | openClamp (maxSeg : Nat)
  | reconfigureTimebase (newNs : Int)
  | reconfigureWindow (newMs : Rat)
  | publish (raw : List (Rat × Rat)) (cnt : Nat)

def bStep (oracle : TbOracle) (s : BState) : BOp → BState
  | .openClamp maxSeg => bOpenClamp oracle maxSeg s
  | .reconfigureTimebase ns => bReconfigureTimebase oracle ns s
  | .reconfigureWindow w => bReconfigureWindowMs oracle w s
  | .publish raw cnt => bPublish raw cnt s

def bRun (oracle : TbOracle) (s : BState) (ops : List BOp) : BState :=
  ops.foldl (bStep oracle) s

/-! ### Session close (`PicoScopeStreamer.stop/close`, picoscope_driver.py
363–382, and identically `PicoScopeRapidBlock.stop/close`, driver.py
168–175 / 300–311) -/

/-- Lifecycle state of a session: the running flag and how many
`ps5000aCloseUnit` driver calls the session has issued. -/
structure SessionState where
  running : Bool
  closeUnitCalls : Nat
  deriving Repr

/-- `stop()`: sets the running flag to false (early-returns when already
stopped, with the same resulting state); issues no handle release. -/
def sessionStop (s : SessionState) : SessionState :=
  if s.running then { s with running := false } else s

/-- `close()`: `self.stop()` in a `try`, then unconditionally
`self.ps.ps5000aCloseUnit(self.handle)` in the `finally` (any driver error
swallowed).  There is no already-closed guard. -/
def sessionClose (s : SessionState) : SessionState :=
  let s1 := sessionStop s
  { s1 with closeUnitCalls := s1.closeUnitCalls + 1 }

def sessionInit : SessionState :=
  { running := false, closeUnitCalls := 0 }

/-! ### Recorder write / read (`picoscope_5000_block.py` 300–309,
`bin_reader.py` 37–49) -/

/-- The recording write (`acq_NNN.bin`): channel A's samples, each
converted by the file precision's quantiser `q` (float16 in the source:
`ya.astype(np.float16)`), followed by channel B's. -/
def writeAcqBin (q : Rat → Rat) (ya yb : List Rat) : List Rat :=
  ya.map q ++ yb.map q

/-- `bin_reader.read_acq_bin`: the file parsed at the caller's precision is
a flat list of values; an odd element count raises `ValueError` before any
array is returned, otherwise the list is split exactly in half. -/
def read_acq_bin (data : List Rat) : Except String (List Rat × List Rat) :=
  if data.length % 2 ≠ 0 then
    .error "Invalid file size: expected an even number of float32 values"
  else
    let n := data.length / 2
    .ok (data.take n, data.drop n)

/-! ### The spec's claimed buffer-sizing formula (for claim C7 this is the
formula as the specification words it, to be compared with the code). -/

/-- Claimed by the spec: buffer length is `round(window_duration /
achieved_interval)`, clamped to the device's maximum samples-per-segment. -/
def specBufLen (windowS dtS : Rat) (maxSeg : Nat) : Nat :=
  min (rnd (windowS / dtS)).toNat maxSeg

/-- A concrete block session state (reachable: achieved interval 1 ms as
resolved for a device whose every timebase reports 1 000 000 ns, max
123 456 samples per segment) used to exercise the sizing formula. -/
def c7State : BState :=
  { rangeA := 7, rangeB := 7, sampleIntervalNs := 1000000, plotWindowMs := 10,
    maxAdc := 32767, dtS := 1/1000, windowS := 1/100, nSamples := 5000,
    yA := List.replicate 5000 0, yB := List.replicate 5000 0,
    t := linspace 0 (1/100 - 1/1000) 5000, maxSegVal := 123456, timebase := 0 }

/-! ## Structural lemmas on the ring write -/

theorem setSlice_length (y : List Rat) (start : Nat) (vals : List Rat)
    (h : start + vals.length ≤ y.length) :
    (setSlice y start vals).length = y.length := by
  rw [setSlice]
  simp only [List.length_append, List.length_take, List.length_drop]
  omega

theorem writeChunk_length (N : Nat) (y : List Rat) (cur : Nat) (c : List Rat)
    (hy : y.length = N) (hcur : cur < N) :
    (writeChunk N y cur c).1.length = N := by
  rw [writeChunk]
  by_cases hbig : N ≤ c.length
  · simp only [if_pos hbig, List.length_drop]
    omega
  · simp only [if_neg hbig]
    have hlt : c.length < N := by omega
    have h1 : (setSlice y cur (c.take (min (cur + c.length) N - cur))).length = y.length := by
      apply setSlice_length
      simp only [List.length_take]
      omega
    by_cases hrem : 0 < c.length - (min (cur + c.length) N - cur)
    · simp only [if_pos hrem]
      rw [setSlice_length, h1, hy]
      rw [h1, hy]
      simp only [List.length_take, List.length_drop]
      omega
    · simp only [if_neg hrem]
      rw [h1, hy]

theorem writeChunk_cursor_lt (N : Nat) (y : List Rat) (cur : Nat) (c : List Rat)
    (hN : 0 < N) (hcur : cur < N) :
    (writeChunk N y cur c).2 < N := by
  rw [writeChunk]
  by_cases hbig : N ≤ c.length
  · simp only [if_pos hbig]
    exact hN
  · simp only [if_neg hbig]
    by_cases hrem : 0 < c.length - (min (cur + c.length) N - cur)
    · simp only [if_pos hrem]
      omega
    · simp only [if_neg hrem]
      exact Nat.mod_lt _ hN

/-- The cursor recurrence of the small-chunk ring write: the cursor
advances by the written count, modulo the ring length. -/
theorem writeChunk_cursor (N : Nat) (y : List Rat) (cur : Nat) (c : List Rat)
    (hc : c.length < N) (hcur : cur < N) :
    (writeChunk N y cur c).2 = (cur + c.length) % N := by
  rw [writeChunk]
  simp only []
  rw [if_neg (not_le.mpr hc)]
  rcases le_or_lt (cur + c.length) N with hw | hw
  · rw [Nat.min_eq_left hw]
    rw [if_neg (by omega)]
  · rw [Nat.min_eq_right (le_of_lt hw)]
    rw [if_pos (by omega)]
    have hmod : (cur + c.length) % N = cur + c.length - N := by
      rw [Nat.mod_eq_sub_mod (by omega)]
      exact Nat.mod_eq_of_lt (by omega)
    simp only [hmod]
    omega

theorem length_ringView (y : List Rat) (cur : Nat) :
    (ringView y cur).length = y.length := by
  rw [ringView]
  simp only [List.length_append, List.length_drop, List.length_take]
  omega

/-- `lastN` of a ring view with a short chunk appended, no-wrap case. -/
theorem lastN_ring_append_le (N : Nat) (y c : List Rat) (cur : Nat)
    (hy : y.length = N) (hle : cur + c.length ≤ N) :
    lastN N (ringView y cur ++ c) = y.drop (cur + c.length) ++ (y.take cur ++ c) := by
  rw [lastN]
  have hlen : (ringView y cur ++ c).length - N = c.length := by
    simp only [List.length_append, length_ringView]
    omega
  rw [hlen, ringView, List.append_assoc, List.drop_append_eq_append_drop]
  have h1 : (y.drop cur).drop c.length = y.drop (cur + c.length) :=
    List.drop_drop c.length cur y
  have h2 : c.length - (y.drop cur).length = 0 := by
    simp only [List.length_drop]
    omega
  rw [h1, h2, List.drop_zero]

/-- `lastN` of a ring view with a short chunk appended, wrap case. -/
theorem lastN_ring_append_gt (N : Nat) (y c : List Rat) (cur : Nat)
    (hy : y.length = N) (hcur : cur < N) (hgt : N < cur + c.length)
    (hc : c.length ≤ N) :
    lastN N (ringView y cur ++ c) =
      (y.take cur).drop (cur + c.length - N) ++ c := by
  rw [lastN]
  have hlen : (ringView y cur ++ c).length - N = c.length := by
    simp only [List.length_append, length_ringView]
    omega
  rw [hlen, ringView, List.append_assoc, List.drop_append_eq_append_drop]
  have h1 : (y.drop cur).drop c.length = [] := by
    apply List.drop_of_length_le
    simp only [List.length_drop]
    omega
  have h2 : c.length - (y.drop cur).length = cur + c.length - N := by
    simp only [List.length_drop]
    omega
  rw [h1, h2, List.nil_append, List.drop_append_eq_append_drop]
  have h3 : cur + c.length - N - (y.take cur).length = 0 := by
    simp only [List.length_take]
    omega
  rw [h3, List.drop_zero]

/-- The ring-view correctness of a single small-chunk write: reading the
updated ring chronologically from the updated cursor gives the last `N`
samples of (old chronological view ++ chunk). -/
theorem writeChunk_view (N : Nat) (y : List Rat) (cur : Nat) (c : List Rat)
    (hy : y.length = N) (hc : c.length < N) (hcur : cur < N) :
    ringView (writeChunk N y cur c).1 (writeChunk N y cur c).2 =
      lastN N (ringView y cur ++ c) := by
  rw [writeChunk]
  simp only []
  rw [if_neg (not_le.mpr hc)]
  rcases le_or_lt (cur + c.length) N with hw | hw
  · -- no wrap: everything fits between the cursor and the ring end
    rw [Nat.min_eq_left hw, if_neg (by omega)]
    have htake : c.take (cur + c.length - cur) = c := by
      rw [show cur + c.length - cur = c.length by omega, List.take_length]
    rw [lastN_ring_append_le N y c cur hy hw]
    simp only [setSlice, htake]
    have hlen1 : (y.take cur ++ c).length = cur + c.length := by
      simp only [List.length_append, List.length_take]
      omega
    rcases lt_or_eq_of_le hw with hw1 | hw1
    · -- cursor strictly inside: (cur + s) % N = cur + s
      have hmod : (cur + c.length) % N = cur + c.length := Nat.mod_eq_of_lt hw1
      rw [ringView]
      simp only [hmod]
      rw [List.append_assoc]
      rw [show cur + c.length = ((y.take cur ++ c)).length from hlen1.symm]
      rw [← List.append_assoc, List.drop_left, List.take_left]
    · -- chunk ends exactly at the ring end: cursor wraps to 0
      have hmod : (cur + c.length) % N = 0 := by
        rw [hw1, Nat.mod_self]
      have hdropN : y.drop (cur + c.length) = [] := by
        apply List.drop_of_length_le
        omega
      rw [ringView]
      simp only [hmod, List.drop_zero, List.take_zero, List.append_nil, hdropN,
        List.nil_append]
  · -- wrap: fill to the ring end, then the remainder from index 0
    rw [Nat.min_eq_right (le_of_lt hw), if_pos (by omega)]
    have hp1len : (c.take (N - cur)).length = N - cur := by
      simp only [List.length_take]
      omega
    have hy1 : setSlice y cur (c.take (N - cur)) = y.take cur ++ c.take (N - cur) := by
      rw [setSlice, hp1len]
      have : y.drop (cur + (N - cur)) = [] := by
        apply List.drop_of_length_le
        omega
      rw [this, List.append_nil]
    have hv2 : (c.drop (N - cur)).take (c.length - (N - cur)) = c.drop (N - cur) := by
      apply List.take_of_length_le
      simp only [List.length_drop]
      omega
    have hv2len : (c.drop (N - cur)).length = c.length - (N - cur) := by
      simp only [List.length_drop]
    rw [lastN_ring_append_gt N y c cur hy hcur hw (le_of_lt hc)]
    rw [hy1, hv2, setSlice]
    simp only [List.take_zero, List.nil_append, Nat.zero_add, hv2len]
    -- y' = c.drop (N - cur) ++ (y.take cur ++ c.take (N - cur)).drop (c.length - (N - cur))
    have hdrop1 : (y.take cur ++ c.take (N - cur)).drop (c.length - (N - cur)) =
        (y.take cur).drop (c.length - (N - cur)) ++ c.take (N - cur) := by
      rw [List.drop_append_eq_append_drop]
      have h0 : c.length - (N - cur) - (y.take cur).length = 0 := by
        simp only [List.length_take]
        omega
      rw [h0, List.drop_zero]
    rw [hdrop1, ringView]
    rw [show c.length - (N - cur) = (c.drop (N - cur)).length from hv2len.symm]
    rw [← List.append_assoc, List.append_assoc (c.drop (N - cur)), List.drop_left,
      List.take_left]
    rw [List.append_assoc, List.take_append_drop]
    congr 1
    rw [hv2len]
    congr 1
    omega

/-- `lastN N` absorbs an earlier `lastN N` on a prefix of length ≥ `N`. -/
theorem lastN_absorb (N : Nat) (X R : List Rat) (h : N ≤ X.length) :
    lastN N (lastN N X ++ R) = lastN N (X ++ R) := by
  rw [lastN, lastN, lastN]
  have h1 : X.drop (X.length - N) ++ R = (X ++ R).drop (X.length - N) := by
    rw [List.drop_append_eq_append_drop]
    have : X.length - N - X.length = 0 := by omega
    rw [this, List.drop_zero]
  rw [h1, List.drop_drop]
  congr 1
  simp only [List.length_drop, List.length_append]
  omega

/-- The fold of small-chunk writes preserves the ring-view/`lastN`
correspondence. -/
theorem foldWrite_view (N : Nat) (chunks : List (List Rat)) :
    ∀ (y : List Rat) (cur : Nat), y.length = N → cur < N →
      (∀ c ∈ chunks, c.length < N) →
      ringView (foldWrite N (y, cur) chunks).1 (foldWrite N (y, cur) chunks).2 =
        lastN N (ringView y cur ++ chunks.flatten) := by
  induction chunks with
  | nil =>
    intro y cur hy hcur _
    rw [foldWrite, List.foldl_nil, List.flatten_nil, List.append_nil, lastN]
    have h0 : (ringView y cur).length - N = 0 := by
      rw [length_ringView]
      omega
    rw [h0, List.drop_zero]
  | cons c cs ih =>
    intro y cur hy hcur hall
    have hc : c.length < N := hall c (List.mem_cons_self c cs)
    have hy' : (writeChunk N y cur c).1.length = N :=
      writeChunk_length N y cur c hy hcur
    have hcur' : (writeChunk N y cur c).2 < N :=
      writeChunk_cursor_lt N y cur c (by omega) hcur
    have hstep : foldWrite N (y, cur) (c :: cs) =
        foldWrite N ((writeChunk N y cur c).1, (writeChunk N y cur c).2) cs := by
      rw [foldWrite, List.foldl_cons, foldWrite]
    rw [hstep, ih _ _ hy' hcur' (fun d hd => hall d (List.mem_cons_of_mem c hd))]
    rw [writeChunk_view N y cur c hy hc hcur]
    rw [List.flatten_cons, lastN_absorb N (ringView y cur ++ c) cs.flatten
      (by simp only [List.length_append, length_ringView]; omega)]
    rw [List.append_assoc]

/-! ## Length invariants of the streaming session -/

/-- The streaming buffer invariant: both voltage rings and the time axis
have exactly `ringLen` entries and the write cursor is in range. -/
def SInv (s : SState) : Prop :=
  s.yA.length = s.ringLen ∧ s.yB.length = s.ringLen ∧
    s.t.length = s.ringLen ∧ s.writeIdx < s.ringLen

theorem sInit_inv (ns : Int) (wm : Rat) (bufSize ra rb : Nat) (te : Bool)
    (tp : Rat) : SInv (sInit ns wm bufSize ra rb te tp) := by
  rw [sInit, SInv]
  refine ⟨?_, ?_, ?_, ?_⟩
  · simp [List.length_replicate]
  · simp [List.length_replicate]
  · simp [linspace_length]
  · simp only []
    split
    · decide
    · rename_i h
      omega

theorem processSamples_inv (buf : List (Rat × Rat)) (n : Int) (idx : Nat)
    (s : SState) (h : SInv s) : SInv (processSamples buf n idx s) := by
  obtain ⟨ha, hb, ht, hcur⟩ := h
  rw [processSamples]
  split
  · exact ⟨ha, hb, ht, hcur⟩
  · refine ⟨?_, ?_, ht, ?_⟩
    · exact writeChunk_length _ _ _ _ ha hcur
    · exact writeChunk_length _ _ _ _ hb hcur
    · exact writeChunk_cursor_lt _ _ _ _ (by omega) hcur

theorem onStreamingReady_inv (buf : List (Rat × Rat)) (n : Int) (idx : Nat)
    (trig : Int) (s : SState) (h : SInv s) :
    SInv (onStreamingReady buf n idx trig s) := by
  rw [onStreamingReady]
  split
  · exact h
  split
  · split
    · exact h
    · exact processSamples_inv _ _ _ _ h
  · exact processSamples_inv _ _ _ _ h

theorem ensure_inv (minNs : Option Rat) (s : SState) (h : SInv s) :
    SInv (ensureSampleIntervalSupported minNs s) := by
  obtain ⟨ha, hb, ht, hcur⟩ := h
  cases minNs with
  | none => exact ⟨ha, hb, ht, hcur⟩
  | some m =>
    rw [ensureSampleIntervalSupported]
    simp only []
    split
    · exact ⟨ha, hb, by rw [linspace_length], hcur⟩
    · exact ⟨ha, hb, ht, hcur⟩

theorem sReconfigureTimebase_inv (minNs : Option Rat) (ns : Int) (s : SState)
    (h : SInv s) : SInv (sReconfigureTimebase minNs ns s) := by
  rw [sReconfigureTimebase]
  refine ⟨?_, ?_, ?_, ?_⟩
  · simp [List.length_replicate]
  · simp [List.length_replicate]
  · simp [linspace_length]
  · simp only []
    have h10 : (10 : Int) ≤ max 10 (rnd ((ensureSampleIntervalSupported minNs
        { s with sampleIntervalNs := max 1 ns }).windowMs * (1 / 1000) /
        ((ensureSampleIntervalSupported minNs
          { s with sampleIntervalNs := max 1 ns }).sampleIntervalNs * (1 / 1000000000)))) :=
      le_max_left _ _
    omega

theorem sReconfigureWindowMs_inv (w : Rat) (s : SState) (h : SInv s) :
    SInv (sReconfigureWindowMs w s) := by
  rw [sReconfigureWindowMs]
  refine ⟨?_, ?_, ?_, ?_⟩
  · simp [List.length_replicate]
  · simp [List.length_replicate]
  · simp [linspace_length]
  · simp only []
    have h10 : (10 : Int) ≤ max 10 (rnd (max (1 / 100) w * (1 / 1000) / s.dtS)) :=
      le_max_left _ _
    omega

theorem sApplyTrigger_inv (e : Bool) (v : Rat) (s : SState) (h : SInv s) :
    SInv (sApplyTrigger e v s) := h

theorem sStep_inv (s : SState) (op : SOp) (h : SInv s) : SInv (sStep s op) := by
  cases op with
  | applyTrigger e v => exact sApplyTrigger_inv e v s h
  | reconfigureTimebase m ns => exact sReconfigureTimebase_inv m ns s h
  | reconfigureWindow w => exact sReconfigureWindowMs_inv w s h
  | callback buf n idx trig => exact onStreamingReady_inv buf n idx trig s h

theorem sRun_inv (s : SState) (ops : List SOp) (h : SInv s) :
    SInv (sRun s ops) := by
  induction ops generalizing s with
  | nil => exact h
  | cons op rest ih => exact ih (sStep s op) (sStep_inv s op h)

/-! ## Length invariant of the block session -/

/-- The block buffer invariant: both voltage arrays and the time axis have
equal length. -/
def BInv (s : BState) : Prop :=
  s.yA.length = s.yB.length ∧ s.t.length = s.yA.length

theorem bInit_inv (ns : Int) (wm : Rat) (pmp ra rb : Nat) :
    BInv (bInit ns wm pmp ra rb) := by
  rw [bInit, BInv]
  constructor
  · simp [List.length_replicate]
  · simp [List.length_replicate, linspace_length]

theorem bOpenClamp_inv (oracle : TbOracle) (maxSeg : Nat) (s : BState)
    (h : BInv s) : BInv (bOpenClamp oracle maxSeg s) := by
  obtain ⟨hab, hta⟩ := h
  rw [bOpenClamp]
  simp only []
  split
  · exact ⟨by simp [List.length_replicate], by simp [List.length_replicate, linspace_length]⟩
  · exact ⟨hab, hta⟩

theorem bReconfigureTimebase_inv (oracle : TbOracle) (ns : Int) (s : BState)
    (h : BInv s) : BInv (bReconfigureTimebase oracle ns s) := by
  rw [bReconfigureTimebase]
  exact ⟨by simp [List.length_replicate], by simp [List.length_replicate, linspace_length]⟩

theorem bReconfigureWindowMs_inv (oracle : TbOracle) (w : Rat) (s : BState)
    (h : BInv s) : BInv (bReconfigureWindowMs oracle w s) := by
  rw [bReconfigureWindowMs]
  exact ⟨by simp [List.length_replicate], by simp [List.length_replicate, linspace_length]⟩

theorem publish_t_length (a t : List Rat) (w d : Rat) :
    (if a.length ≠ t.length then linspace 0 (w - d) a.length else t).length =
      a.length := by
  split
  · rw [linspace_length]
  · rename_i hne
    exact (not_ne_iff.mp hne).symm

theorem bPublish_inv (raw : List (Rat × Rat)) (cnt : Nat) (s : BState)
    (h : BInv s) : BInv (bPublish raw cnt s) := by
  obtain ⟨hab, hta⟩ := h
  rw [bPublish]
  split
  · exact ⟨hab, hta⟩
  · refine ⟨by simp [List.length_map], ?_⟩
    exact publish_t_length _ _ _ _

theorem bStep_inv (oracle : TbOracle) (s : BState) (op : BOp) (h : BInv s) :
    BInv (bStep oracle s op) := by
  cases op with
  | openClamp m => exact bOpenClamp_inv oracle m s h
  | reconfigureTimebase ns => exact bReconfigureTimebase_inv oracle ns s h
  | reconfigureWindow w => exact bReconfigureWindowMs_inv oracle w s h
  | publish raw cnt => exact bPublish_inv raw cnt s h

theorem bRun_inv (oracle : TbOracle) (s : BState) (ops : List BOp)
    (h : BInv s) : BInv (bRun oracle s ops) := by
  induction ops generalizing s with
  | nil => exact h
  | cons op rest ih => exact ih (bStep oracle s op) (bStep_inv oracle s op h)

/-! ## Timebase-resolver lemmas -/

/-- When the device's `GetTimebase2` reply does not depend on the sample
count (the physical ps5000a's interval is a function of the timebase index
alone), the probe loop is independent of the sample count. -/
theorem findTimebaseAux_irrel (oracle : TbOracle)
    (hOr : ∀ tb n n', oracle tb n = oracle tb n') (desired : Rat)
    (n n' : Nat) : ∀ (fuel tb : Nat),
    findTimebaseAux oracle desired n fuel tb =
      findTimebaseAux oracle desired n' fuel tb := by
  intro fuel
  induction fuel using Nat.strong_induction_on with
  | _ fuel ih =>
    intro tb
    conv_lhs => rw [findTimebaseAux]
    conv_rhs => rw [findTimebaseAux]
    by_cases h0 : fuel = 0
    · rw [if_pos h0, if_pos h0]
    · rw [if_neg h0, if_neg h0, hOr tb n n']
      simp only []
      split
      · rfl
      · exact ih (fuel - 1) (by omega) (tb + 1)

theorem resolveDtS_irrel (oracle : TbOracle)
    (hOr : ∀ tb n n', oracle tb n = oracle tb n') (desired : Rat)
    (n n' : Nat) (dtOld : Rat) :
    resolveDtS oracle desired n dtOld = resolveDtS oracle desired n' dtOld := by
  rw [resolveDtS, resolveDtS, findTimebase, findTimebase,
    findTimebaseAux_irrel oracle hOr desired n n' 50000 0]

/-- The observable fields of a block `reconfigure_window_ms` call in terms
of the pre-call state. -/
theorem bReconfigureWindowMs_proj (oracle : TbOracle) (w : Rat) (s : BState) :
    (bReconfigureWindowMs oracle w s).nSamples =
        bDepth (max (1/100) w * (1/1000)) s.dtS s.maxSegVal ∧
      (bReconfigureWindowMs oracle w s).dtS =
        resolveDtS oracle (s.sampleIntervalNs : Rat)
          (bDepth (max (1/100) w * (1/1000)) s.dtS s.maxSegVal) s.dtS ∧
      (bReconfigureWindowMs oracle w s).sampleIntervalNs = s.sampleIntervalNs ∧
      (bReconfigureWindowMs oracle w s).maxSegVal = s.maxSegVal :=
  ⟨rfl, rfl, rfl, rfl⟩

/-! ## Claims -/

/-- **C1** — Buffer consistency: for every sequence of reconfigure-window /
reconfigure-timebase calls interleaved with publish operations (streaming
callback copy-in, or block wholesale replace; trigger re-arms and the
open-time segment clamp included for good measure), the time-axis length
equals the voltage-A length and the voltage-B length — in both session
variants. -/
theorem claim_C1 :
    (∀ (ns : Int) (wm : Rat) (bufSize ra rb : Nat) (te : Bool) (tp : Rat)
        (ops : List SOp),
      (sRun (sInit ns wm bufSize ra rb te tp) ops).t.length =
          (sRun (sInit ns wm bufSize ra rb te tp) ops).yA.length ∧
        (sRun (sInit ns wm bufSize ra rb te tp) ops).t.length =
          (sRun (sInit ns wm bufSize ra rb te tp) ops).yB.length) ∧
    (∀ (oracle : TbOracle) (ns : Int) (wm : Rat) (pmp ra rb : Nat)
        (ops : List BOp),
      (bRun oracle (bInit ns wm pmp ra rb) ops).t.length =
          (bRun oracle (bInit ns wm pmp ra rb) ops).yA.length ∧
        (bRun oracle (bInit ns wm pmp ra rb) ops).t.length =
          (bRun oracle (bInit ns wm pmp ra rb) ops).yB.length) := by
  constructor
  · intro ns wm bufSize ra rb te tp ops
    obtain ⟨ha, hb, ht, _⟩ := sRun_inv _ ops (sInit_inv ns wm bufSize ra rb te tp)
    exact ⟨ht.trans ha.symm, ht.trans hb.symm⟩
  · intro oracle ns wm pmp ra rb ops
    obtain ⟨hab, hta⟩ := bRun_inv oracle _ ops (bInit_inv ns wm pmp ra rb)
    exact ⟨hta, hta.trans hab⟩

/-- **C10** — Implicit streaming write-cursor invariant: after session
construction and any sequence of delivery callbacks (any delivered count
and start index), reconfigurations and trigger re-arms, the ring write
cursor satisfies `0 ≤ cursor < ring length` (the lower bound holds by the
cursor being a natural number). -/
theorem claim_C10 (ns : Int) (wm : Rat) (bufSize ra rb : Nat) (te : Bool)
    (tp : Rat) (ops : List SOp) :
    (sRun (sInit ns wm bufSize ra rb te tp) ops).writeIdx <
      (sRun (sInit ns wm bufSize ra rb te tp) ops).ringLen :=
  (sRun_inv _ ops (sInit_inv ns wm bufSize ra rb te tp)).2.2.2

/-- **C2** — Streaming ring write: for a ring of length `N` and delivered
chunks each of size `1 ≤ s < N`, starting at cursor 0: the cursor after
each write equals `(cursor_before + s) mod N` (the chunk is laid down from
the cursor, wrapping past the ring end at most once — the split into an
in-place run and a wrapped run is the `writeChunk` definition itself), and
the final ring, read chronologically from the final cursor, equals the
last `N` values of the initial ring followed by the concatenated delivery
stream. -/
theorem claim_C2 (N : Nat) (init : List Rat) (chunks : List (List Rat))
    (hinit : init.length = N) (hpos : 0 < N)
    (hchunks : ∀ c ∈ chunks, 1 ≤ c.length ∧ c.length < N) :
    (∀ (y : List Rat) (cur : Nat) (c : List Rat), cur < N → c.length < N →
      (writeChunk N y cur c).2 = (cur + c.length) % N) ∧
    ringView (foldWrite N (init, 0) chunks).1 (foldWrite N (init, 0) chunks).2 =
      lastN N (init ++ chunks.flatten) := by
  constructor
  · intro y cur c hcur hc
    exact writeChunk_cursor N y cur c hc hcur
  · have h := foldWrite_view N chunks init 0 hinit hpos
      (fun c hc => (hchunks c hc).2)
    rw [h, ringView, List.drop_zero, List.take_zero, List.append_nil]

theorem claim_C2_witness :
    (([0, 0, 0] : List Rat).length = 3 ∧ (0 : Nat) < 3 ∧
      (∀ c ∈ ([[1, 2], [3, 4]] : List (List Rat)), 1 ≤ c.length ∧ c.length < 3)) ∧
    ((∀ (y : List Rat) (cur : Nat) (c : List Rat), cur < 3 → c.length < 3 →
        (writeChunk 3 y cur c).2 = (cur + c.length) % 3) ∧
      ringView (foldWrite 3 ([0, 0, 0], 0) [[1, 2], [3, 4]]).1
          (foldWrite 3 ([0, 0, 0], 0) [[1, 2], [3, 4]]).2 =
        lastN 3 ([0, 0, 0] ++ ([[1, 2], [3, 4]] : List (List Rat)).flatten)) :=
  ⟨⟨by decide, by decide, by decide⟩,
    claim_C2 3 [0, 0, 0] [[1, 2], [3, 4]] (by decide) (by decide) (by decide)⟩

/-- **C3** — Streaming ring write, large delivery: if a single delivered
chunk has at least `N` samples (`N` the ring length), the write replaces
the whole ring with the chunk's last `N` samples, regardless of the ring's
prior content and cursor, and resets the write cursor to 0. -/
theorem claim_C3 (N : Nat) (y : List Rat) (cur : Nat) (chunk : List Rat)
    (h : N ≤ chunk.length) :
    writeChunk N y cur chunk = (lastN N chunk, 0) := by
  rw [writeChunk, lastN]
  simp only [if_pos h]

theorem claim_C3_witness :
    2 ≤ ([1, 2, 3] : List Rat).length ∧
      writeChunk 2 [5, 6] 1 [1, 2, 3] = (lastN 2 [1, 2, 3], 0) :=
  ⟨by decide, claim_C3 2 [5, 6] 1 [1, 2, 3] (by decide)⟩

/-- **C8** — Recorder round trip: writing equal-length channel-A and
channel-B runs (each sample quantised by the file precision `q`) and
reading the file back returns exactly the quantised originals, i.e. the
originals up to the precision's rounding; and the reader rejects, before
returning any array, every file whose total element count is odd. -/
theorem claim_C8 (q : Rat → Rat) (ya yb : List Rat)
    (hlen : ya.length = yb.length)
    (data : List Rat) (hodd : data.length % 2 = 1) :
    read_acq_bin (writeAcqBin q ya yb) = .ok (ya.map q, yb.map q) ∧
      ∃ e, read_acq_bin data = .error e := by
  constructor
  · rw [writeAcqBin, read_acq_bin]
    have hl : ((ya.map q) ++ (yb.map q)).length = 2 * ya.length := by
      simp [List.length_append, List.length_map, hlen]; omega
    rw [if_neg (by omega)]
    have hhalf : ((ya.map q) ++ (yb.map q)).length / 2 = ya.length := by omega
    have h1 : ((ya.map q) ++ (yb.map q)).take ya.length = ya.map q := by
      have h := (List.length_map ya q).symm
      rw [h, List.take_left]
    have h2 : ((ya.map q) ++ (yb.map q)).drop ya.length = yb.map q := by
      have h := (List.length_map ya q).symm
      rw [h, List.drop_left]
    simp only []
    rw [hhalf, h1, h2]
  · exact ⟨"Invalid file size: expected an even number of float32 values",
      by rw [read_acq_bin, if_pos (by omega)]⟩

theorem claim_C8_witness :
    ([1, 2] : List Rat).length = ([3, 4] : List Rat).length ∧
      ([9] : List Rat).length % 2 = 1 ∧
      (read_acq_bin (writeAcqBin id [1, 2] [3, 4]) =
          .ok (([1, 2] : List Rat).map id, ([3, 4] : List Rat).map id) ∧
        ∃ e, read_acq_bin [9] = .error e) :=
  ⟨by decide, by decide, claim_C8 id [1, 2] [3, 4] (by decide) [9] (by decide)⟩

theorem processSamples_seenTrigger (buf : List (Rat × Rat)) (n : Int)
    (idx : Nat) (s : SState) :
    (processSamples buf n idx s).seenTrigger = s.seenTrigger := by
  rw [processSamples]
  split <;> rfl

/-- **C5** — Streaming trigger gating: (a) while the trigger is enabled and
no trigger has been seen since the last `apply_trigger`, a callback whose
triggered flag is 0 leaves the whole session state (ring, cursor and all)
unchanged; (b) a gated callback with a nonzero triggered flag latches
`seen_trigger` and performs the normal sample copy; (c) once
`seen_trigger` is latched, every subsequent delivering callback performs
the normal sample copy regardless of its own triggered flag, and the latch
stays set; (d) every `apply_trigger` call resets gating to un-triggered. -/
theorem claim_C5 :
    (∀ (buf : List (Rat × Rat)) (n : Int) (idx : Nat) (s : SState),
      s.triggerEnabled = true → s.seenTrigger = false →
        onStreamingReady buf n idx 0 s = s) ∧
    (∀ (buf : List (Rat × Rat)) (n : Int) (idx : Nat) (trig : Int) (s : SState),
      s.triggerEnabled = true → s.seenTrigger = false → trig ≠ 0 → 0 < n →
        onStreamingReady buf n idx trig s =
            processSamples buf n idx { s with seenTrigger := true } ∧
          (onStreamingReady buf n idx trig s).seenTrigger = true) ∧
    (∀ (buf : List (Rat × Rat)) (n : Int) (idx : Nat) (trig : Int) (s : SState),
      s.seenTrigger = true → 0 < n →
        onStreamingReady buf n idx trig s = processSamples buf n idx s ∧
          (onStreamingReady buf n idx trig s).seenTrigger = true) ∧
    (∀ (e : Bool) (v : Rat) (s : SState),
      (sApplyTrigger e v s).seenTrigger = false) := by
  refine ⟨?_, ?_, ?_, ?_⟩
  · intro buf n idx s hen hseen
    rw [onStreamingReady]
    by_cases hn : n ≤ 0
    · rw [if_pos hn]
    · rw [if_neg hn, if_pos (by simp [hen, hseen]), if_pos rfl]
  · intro buf n idx trig s hen hseen htrig hn
    have h1 : onStreamingReady buf n idx trig s =
        processSamples buf n idx { s with seenTrigger := true } := by
      rw [onStreamingReady, if_neg (by omega), if_pos (by simp [hen, hseen]),
        if_neg htrig]
    exact ⟨h1, by rw [h1, processSamples_seenTrigger]⟩
  · intro buf n idx trig s hseen hn
    have h1 : onStreamingReady buf n idx trig s = processSamples buf n idx s := by
      rw [onStreamingReady, if_neg (by omega), if_neg (by simp [hseen])]
    exact ⟨h1, by rw [h1, processSamples_seenTrigger, hseen]⟩
  · intro e v s
    rfl

theorem claim_C5_witness :
    onStreamingReady [] 1 0 0 (sInit 1000 20 200000 7 7 true (1/10)) =
        sInit 1000 20 200000 7 7 true (1/10) ∧
      (onStreamingReady [] 1 0 1 (sInit 1000 20 200000 7 7 true (1/10))).seenTrigger
          = true ∧
      (onStreamingReady [] 1 0 0
          { sInit 1000 20 200000 7 7 true (1/10) with seenTrigger := true }).seenTrigger
          = true ∧
      (sApplyTrigger false 0 (sInit 1000 20 200000 7 7 true (1/10))).seenTrigger
          = false :=
  ⟨claim_C5.1 [] 1 0 _ rfl rfl,
    (claim_C5.2.1 [] 1 0 1 _ rfl rfl (by decide) (by decide)).2,
    (claim_C5.2.2.1 [] 1 0 0 _ rfl (by decide)).2,
    claim_C5.2.2.2 false 0 _⟩

/-- **C7 counterexample** — the claim's formula `round(window / achieved)
clamped to max-samples-per-segment` fails on the code: reconfiguring the
window to 0.01 ms with achieved interval 1 ms gives `round = 0`, so the
claimed length is `min 0 123456 = 0`, but the code floors the depth at 10
samples (and the resulting buffer has 10 entries). -/
theorem claim_C7_counterexample :
    (bReconfigureWindowMs (fun _ _ => (true, (1000000 : Rat))) (1/100)
        c7State).nSamples = 10 ∧
      (bReconfigureWindowMs (fun _ _ => (true, (1000000 : Rat))) (1/100)
        c7State).windowS = 1/100000 ∧
      (bReconfigureWindowMs (fun _ _ => (true, (1000000 : Rat))) (1/100)
        c7State).dtS = 1/1000 ∧
      specBufLen (1/100000) (1/1000) 123456 = 0 ∧
      (bReconfigureWindowMs (fun _ _ => (true, (1000000 : Rat))) (1/100)
        c7State).nSamples ≠ specBufLen (1/100000) (1/1000) 123456 := by
  have harg : max (1/100 : Rat) (1/100) * (1/1000) / c7State.dtS = 1/100 := by
    rw [c7State]
    norm_num
  have hrnd : rnd (max (1/100 : Rat) (1/100) * (1/1000) / c7State.dtS) = 0 := by
    rw [harg, rnd_eval _ 0 (by norm_num)]
    norm_num
  have hdepth : bDepth (max (1/100 : Rat) (1/100) * (1/1000)) c7State.dtS
      c7State.maxSegVal = 10 := by
    rw [bDepth]
    simp only [hrnd]
    norm_num [c7State]
    decide
  have h1 : (bReconfigureWindowMs (fun _ _ => (true, (1000000 : Rat))) (1/100)
      c7State).nSamples = 10 := by
    rw [(bReconfigureWindowMs_proj (fun _ _ => (true, (1000000 : Rat))) (1/100)
      c7State).1, hdepth]
  have h2 : (bReconfigureWindowMs (fun _ _ => (true, (1000000 : Rat))) (1/100)
      c7State).windowS = 1/100000 := by
    show max (1/100 : Rat) (1/100) * (1/1000) = 1/100000
    norm_num
  have h3 : (bReconfigureWindowMs (fun _ _ => (true, (1000000 : Rat))) (1/100)
      c7State).dtS = 1/1000 := by
    rw [(bReconfigureWindowMs_proj (fun _ _ => (true, (1000000 : Rat))) (1/100)
      c7State).2.1, hdepth]
    rw [resolveDtS, findTimebase, findTimebaseAux]
    norm_num [c7State]
  have h4 : specBufLen (1/100000) (1/1000) 123456 = 0 := by
    rw [specBufLen]
    have : ((1 : Rat)/100000) / (1/1000) = 1/100 := by norm_num
    rw [this, rnd_eval _ 0 (by norm_num)]
    norm_num
  exact ⟨h1, h2, h3, h4, by rw [h1, h4]; omega⟩

/-- **C7 (amended)** — after every reconfiguration the sample depth equals
`max(10, round(window_duration / achieved_interval))` — the code enforces
a 10-sample floor the spec formula lacks — where the block variant
additionally clamps to the device's max samples-per-segment when that is
known (nonzero), using the achieved interval current when the depth is
computed; the streaming variant applies no segment clamp at all. -/
theorem claim_C7_amended :
    (∀ (w : Rat) (s : SState),
      (sReconfigureWindowMs w s).ringLen =
        (max 10 (rnd ((sReconfigureWindowMs w s).windowMs * (1/1000) /
          (sReconfigureWindowMs w s).dtS))).toNat) ∧
    (∀ (minNs : Option Rat) (ns : Int) (s : SState),
      (sReconfigureTimebase minNs ns s).ringLen =
        (max 10 (rnd ((sReconfigureTimebase minNs ns s).windowMs * (1/1000) /
          (sReconfigureTimebase minNs ns s).dtS))).toNat) ∧
    (∀ (oracle : TbOracle) (w : Rat) (s : BState),
      (bReconfigureWindowMs oracle w s).nSamples =
        if s.maxSegVal ≠ 0 ∧ s.maxSegVal <
            (max 10 (rnd ((bReconfigureWindowMs oracle w s).windowS / s.dtS))).toNat
        then s.maxSegVal
        else (max 10 (rnd ((bReconfigureWindowMs oracle w s).windowS / s.dtS))).toNat) ∧
    (∀ (oracle : TbOracle) (ns : Int) (s : BState),
      (bReconfigureTimebase oracle ns s).nSamples =
        if s.maxSegVal ≠ 0 ∧ s.maxSegVal <
            (max 10 (rnd ((bReconfigureTimebase oracle ns s).windowS /
              (((max 1 ns : Int) : Rat) * (1/1000000000))))).toNat
        then s.maxSegVal
        else (max 10 (rnd ((bReconfigureTimebase oracle ns s).windowS /
          (((max 1 ns : Int) : Rat) * (1/1000000000))))).toNat) := by
  refine ⟨fun w s => rfl, fun m ns s => rfl, fun oracle w s => rfl,
    fun oracle ns s => rfl⟩

/-- **C9 counterexample** — the claim says a second `close()` never issues
a second handle release; but `close()` has no already-closed guard, so two
calls issue two `ps5000aCloseUnit` driver calls. -/
theorem claim_C9_counterexample :
    (sessionClose (sessionClose sessionInit)).closeUnitCalls = 2 := by
  decide

/-- **C9 (amended)** — `close()` stops any running acquisition, then issues
a handle release on *every* invocation: each call increments the count of
`ps5000aCloseUnit` calls by one (the second release's driver error is
swallowed), rather than releasing exactly once per session. -/
theorem claim_C9_amended (s : SessionState) :
    (sessionClose s).running = false ∧
      (sessionClose s).closeUnitCalls = s.closeUnitCalls + 1 := by
  rw [sessionClose, sessionStop]
  constructor
  · split <;> simp_all
  · split <;> rfl

/-- **C6** — Idempotent window reconfiguration.  Streaming: two
back-to-back `reconfigure_window_ms(w)` calls produce rings of identical
length, and neither call changes the achieved sample interval.  Block: the
same holds provided the device's timebase reply depends only on the index
(as on the physical device) and the session's achieved interval is the
resolver's fixed point (as in every state the driver reaches, since every
open/reconfigure ends by re-resolving). -/
theorem claim_C6 :
    (∀ (w : Rat) (s : SState),
      (sReconfigureWindowMs w (sReconfigureWindowMs w s)).ringLen =
          (sReconfigureWindowMs w s).ringLen ∧
        (sReconfigureWindowMs w s).dtS = s.dtS ∧
        (sReconfigureWindowMs w (sReconfigureWindowMs w s)).dtS =
          (sReconfigureWindowMs w s).dtS) ∧
    (∀ (oracle : TbOracle) (w : Rat) (s : BState),
      (∀ tb n n', oracle tb n = oracle tb n') →
      resolveDtS oracle (s.sampleIntervalNs : Rat) 0 s.dtS = s.dtS →
      (bReconfigureWindowMs oracle w (bReconfigureWindowMs oracle w s)).nSamples =
          (bReconfigureWindowMs oracle w s).nSamples ∧
        (bReconfigureWindowMs oracle w s).dtS = s.dtS ∧
        (bReconfigureWindowMs oracle w (bReconfigureWindowMs oracle w s)).dtS =
          (bReconfigureWindowMs oracle w s).dtS) := by
  constructor
  · intro w s
    exact ⟨rfl, rfl, rfl⟩
  · intro oracle w s hOr hfix
    obtain ⟨hn1, hd1, _, _⟩ := bReconfigureWindowMs_proj oracle w s
    obtain ⟨hn2, hd2, _, _⟩ :=
      bReconfigureWindowMs_proj oracle w (bReconfigureWindowMs oracle w s)
    have hd1' : (bReconfigureWindowMs oracle w s).dtS = s.dtS := by
      rw [hd1, resolveDtS_irrel oracle hOr _ _ 0, hfix]
    have hns : (bReconfigureWindowMs oracle w s).sampleIntervalNs =
        s.sampleIntervalNs := rfl
    have hms : (bReconfigureWindowMs oracle w s).maxSegVal = s.maxSegVal := rfl
    refine ⟨?_, hd1', ?_⟩
    · rw [hn2, hn1, hd1', hms]
    · rw [hd2, hns, hms, hd1', resolveDtS_irrel oracle hOr _ _ 0, hfix]

theorem claim_C6_witness :
    (∀ (tb n n' : Nat),
        (fun (_ _ : Nat) => (true, (100 : Rat))) tb n =
          (fun (_ _ : Nat) => (true, (100 : Rat))) tb n') ∧
      resolveDtS (fun _ _ => (true, (100 : Rat)))
          ((bInit 100 10 5000 7 7).sampleIntervalNs : Rat) 0
          (bInit 100 10 5000 7 7).dtS = (bInit 100 10 5000 7 7).dtS ∧
      ((bReconfigureWindowMs (fun _ _ => (true, (100 : Rat))) 10
            (bReconfigureWindowMs (fun _ _ => (true, (100 : Rat))) 10
              (bInit 100 10 5000 7 7))).nSamples =
          (bReconfigureWindowMs (fun _ _ => (true, (100 : Rat))) 10
            (bInit 100 10 5000 7 7)).nSamples ∧
        (bReconfigureWindowMs (fun _ _ => (true, (100 : Rat))) 10
            (bInit 100 10 5000 7 7)).dtS = (bInit 100 10 5000 7 7).dtS ∧
        (bReconfigureWindowMs (fun _ _ => (true, (100 : Rat))) 10
            (bReconfigureWindowMs (fun _ _ => (true, (100 : Rat))) 10
              (bInit 100 10 5000 7 7))).dtS =
          (bReconfigureWindowMs (fun _ _ => (true, (100 : Rat))) 10
            (bInit 100 10 5000 7 7)).dtS) := by
  have hfix : resolveDtS (fun _ _ => (true, (100 : Rat)))
      ((bInit 100 10 5000 7 7).sampleIntervalNs : Rat) 0
      (bInit 100 10 5000 7 7).dtS = (bInit 100 10 5000 7 7).dtS := by
    rw [resolveDtS, findTimebase, findTimebaseAux]
    norm_num [bInit]
  exact ⟨fun _ _ _ => rfl, hfix,
    claim_C6.2 (fun _ _ => (true, (100 : Rat))) 10 (bInit 100 10 5000 7 7)
      (fun _ _ _ => rfl) hfix⟩

/-- **C4** — the claim (and the source's own comment, "Walk timebase
indices until interval >= requested dt") says the block resolver never
returns an index whose achieved interval is strictly smaller than
requested.  Evaluating `_find_timebase` on a device whose timebase 0 has
interval 1 ns and timebase 1 has interval 2 ns, with 8 ns requested: the
acceptance condition `ok and (dt >= desired or tb > 0 and dt > 0)`
accepts index 1 with achieved interval 2 ns < 8 ns. -/
theorem claim_C4 :
    findTimebase (fun tb _ => (true, if tb = 0 then 1 else 2)) 8 100 =
        (1, some 2) ∧ (2 : Rat) < 8 := by
  constructor
  · rw [findTimebase, findTimebaseAux]
    norm_num
    rw [findTimebaseAux]
    norm_num
  · norm_num

end Pico
